import Mathlib

/-!
Shallow embedding of the Neural Graph construction core of the NeMo
repository: `nemo/core/neural_graph.py` (class `NeuralGraph`: `__call__`,
`record_step`, `bind_input`, `__enter__`/`__exit__`, `activate`/`deactivate`)
and `nemo/utils/app_state.py` (the thread-safe `Singleton` metaclass).

Python heap objects are modelled as values threaded explicitly: tensors
(`NmTensor`) live in a heap indexed by `TensorId` because `__call__` mutates
tensors in place (`add_consumer`, `producer_args[...] = ...`); graphs are
plain records passed and returned by value.  Machine-level details (object
identity of modules) are modelled by the module's registered unique name,
which is how the source itself compares producers
(`output_tensor.producer.name == producer.name`).
-/

namespace NeMoSpec

/-- Operation mode of a graph, `nemo.core.OperationMode`:
training / inference (evaluation) / both. -/
inductive OperationMode where
  | training
  | inference
  | both
deriving DecidableEq, Repr

/-- Result of comparing two neural types,
`nemo.core.neural_types.NeuralTypeComparisonResult` (the values used by the
graph code and the spec). -/
inductive NeuralTypeComparisonResult where
  | SAME
  | GREATER
  | LESSER
  | DIM_INCOMPATIBLE
  | INCOMPATIBLE
deriving DecidableEq, Repr

/-- A port descriptor (`NeuralType`).  The graph code treats it as opaque
apart from the `compare` operation, which is supplied as a parameter to the
call function (its implementation lives outside the graph module). -/
structure NeuralType where
  tyid : Nat
deriving DecidableEq, Repr

/-- A neural module, opaque to the graph code apart from its registered
unique `name` (the registry guarantees process-wide unique names). -/
structure Module where
  name : String
deriving DecidableEq, Repr

/-- Identity of a tensor object on the heap. -/
abbrev TensorId := Nat

/-- An `NmTensor`: producer module, producer arguments
(port name → tensor), consumer list ((module, port) pairs, append-only),
and its declared neural type. -/
structure NmTensor where
  producer : Module
  producer_args : List (String × TensorId)
  consumers : List (Module × String)
  ntype : NeuralType
deriving DecidableEq, Repr

/-- The tensor heap: tensors are mutable Python objects, modelled as a total
map from ids to tensor values. -/
def Heap := TensorId → NmTensor

/-- Point update of the heap (in-place mutation of one tensor object). -/
def hUpdate (h : Heap) (i : TensorId) (v : NmTensor) : Heap :=
  fun j => if j = i then v else h j

/-- Lookup in a Python `dict` modelled as an insertion-ordered
association list. -/
def dictGet {κ α : Type} [DecidableEq κ] : List (κ × α) → κ → Option α
  | [], _ => none
  | (k, v) :: rest, key => if key = k then some v else dictGet rest key

/-- Python `dict` assignment `d[k] = v`: replaces the value in place if the
key is present (keeping its position), otherwise appends at the end. -/
def dictInsert {κ α : Type} [DecidableEq κ] : List (κ × α) → κ → α → List (κ × α)
  | [], k, v => [(k, v)]
  | (k', v') :: rest, k, v =>
      if k = k' then (k, v) :: rest else (k', v') :: dictInsert rest k v

/-- A recorded step: the invoked module together with the keyword arguments
it was invoked with (`self._steps` entries `[module, inputs]`). -/
abbrev StepArgs := List (String × TensorId)

/-- The `NeuralGraph` record: name, operation mode, bound input tables,
bound outputs (`BoundOutputs` is an ordered name → tensor mapping),
module table and ordered step list. -/
structure NeuralGraph where
  name : String
  operation_mode : OperationMode
  bound_input_ports : List (String × NeuralType)
  bound_input_tensors : List (String × Option TensorId)
  bound_input_modules : List (String × Module)
  bound_outputs : List (String × TensorId)
  modules : List (String × Module)
  steps : List (Module × StepArgs)

/-- `NeuralGraph.record_step(module, inputs)`: insert the module into
`modules` keyed by its name and append the step. -/
def record_step (g : NeuralGraph) (m : Module) (inputs : StepArgs) : NeuralGraph :=
  { g with
    modules := dictInsert g.modules m.name m
    steps := g.steps ++ [(m, inputs)] }

/-- `NeuralGraph.bind_input(port_name, port_definition, bound_module)`:
copy the port definition, mark the tensor as missing (`None`) and remember
the bound module. -/
def bind_input (g : NeuralGraph) (port_name : String) (port_definition : NeuralType)
    (bound_module : Module) : NeuralGraph :=
  { g with
    bound_input_ports := dictInsert g.bound_input_ports port_name port_definition
    bound_input_tensors := dictInsert g.bound_input_tensors port_name none
    bound_input_modules := dictInsert g.bound_input_modules port_name bound_module }

/-- Errors raised by `NeuralGraph.__call__`.  `ModeIncompatibility` is the
`TypeError` of the nesting-mode checks; `PortNameMismatch` is
`NeuralPortNameMismatchError`; `PortTypeMismatch` is
`NeuralPortNmTensorMismatchError` (carrying both type descriptors and the
comparison result); `KeyNotFound` is the Python `KeyError` raised by a bare
`dict` subscript. -/
inductive CallError where
  | ModeIncompatibility (inner outer : OperationMode)
  | PortNameMismatch (name : String)
  | PortTypeMismatch (expected got : NeuralType) (result : NeuralTypeComparisonResult)
  | KeyNotFound (key : String)
deriving DecidableEq, Repr

/-- A keyword-argument value passed to a graph invocation: either a neural
graph (referenced by an opaque id: the call only mutates it through
`bind_input`, recorded as an external effect) or a tensor. -/
inductive InputObject where
  | graphRef (gid : Nat)
  | tensor (t : TensorId)
deriving DecidableEq, Repr

/-- A `bind_input` performed on a graph passed as an argument:
(target graph id, port name, port definition, name of the called graph that
becomes the bound module). -/
abbrev ExternalBind := Nat × String × NeuralType × String

/-- The mutable state threaded through `NeuralGraph.__call__`: the called
graph itself (`self`), the outer active graph, the tensor heap, and the
`bind_input` effects on graphs passed as arguments. -/
structure CallState where
  g : NeuralGraph
  outer : NeuralGraph
  heap : Heap
  binds : List ExternalBind

/-- The value returned by a successful `NeuralGraph.__call__`: the single
bound output tensor, or a namedtuple of all bound outputs in insertion
order. -/
inductive CallOutput where
  | single (t : TensorId)
  | aggregate (fields : List (String × TensorId))
deriving DecidableEq, Repr

/-- The producer-args rewrite loop of `__call__`: for every bound output
tensor whose producer has the bound module's name, set
`producer_args[port] = tid`. -/
def updateOutputs (heap : Heap) (outs : List (String × TensorId))
    (producerName port : String) (tid : TensorId) : Heap :=
  match outs with
  | [] => heap
  | (_, oid) :: rest =>
      let ot := heap oid
      let heap' :=
        if ot.producer.name = producerName then
          hUpdate heap oid { ot with producer_args := dictInsert ot.producer_args port tid }
        else heap
      updateOutputs heap' rest producerName port tid

/-- The keyword-argument loop of `NeuralGraph.__call__`, processed in
order.  `compare` is `NeuralType.compare` (defined outside the graph
module), applied as `input_port_defs[name].compare(input_object)`.
Returns the state at the point of return or raise, with the raised error
if any. -/
def processKwargs (compare : NeuralType → NmTensor → NeuralTypeComparisonResult)
    (st : CallState) :
    List (String × InputObject) → CallState × Option CallError
  | [] => (st, none)
  | (name, obj) :: rest =>
    match dictGet st.g.bound_input_ports name with
    | none => (st, some (.PortNameMismatch name))
    | some pd =>
      match obj with
      | .graphRef gid =>
          processKwargs compare
            { st with binds := st.binds ++ [(gid, name, pd, st.g.name)] } rest
      | .tensor tid =>
          let tv := st.heap tid
          let cmp := compare pd tv
          if cmp = .SAME ∨ cmp = .GREATER then
            match dictGet st.g.bound_input_modules name with
            | none => (st, some (.KeyNotFound name))
            | some consumer =>
              let heap1 := hUpdate st.heap tid
                { tv with consumers := tv.consumers ++ [(consumer, name)] }
              let heap2 := updateOutputs heap1 st.g.bound_outputs consumer.name name tid
              processKwargs compare { st with heap := heap2 } rest
          else (st, some (.PortTypeMismatch pd tv.ntype cmp))

/-- The replay loop of `__call__`:
`for step in self._steps: self._app_state.active_graph.record_step(*step)`. -/
def replaySteps (steps : List (Module × StepArgs)) (d : NeuralGraph) : NeuralGraph :=
  steps.foldl (fun og step => record_step og step.1 step.2) d

/-- The body of `NeuralGraph.__call__` after the operation-mode checks:
replay of `g`'s steps into the outer graph, keyword-argument binding, and
output production. -/
def neuralGraphCallBody (compare : NeuralType → NmTensor → NeuralTypeComparisonResult)
    (g outer : NeuralGraph) (heap : Heap)
    (kwargs : List (String × InputObject)) :
    CallState × Except CallError CallOutput :=
  let outer1 := replaySteps g.steps outer
  let st1 : CallState := ⟨g, outer1, heap, []⟩
  match processKwargs compare st1 kwargs with
  | (st2, some e) => (st2, .error e)
  | (st2, none) =>
      match st2.g.bound_outputs with
      | [(_, tid)] => (st2, .ok (.single tid))
      | outs => (st2, .ok (.aggregate outs))

/-- `NeuralGraph.__call__(**kwargs)` with `self = g` and the active graph
`outer`:  operation-mode checks, then the call body.  Returns the final
state together with the result or the raised error. -/
def neuralGraphCall (compare : NeuralType → NmTensor → NeuralTypeComparisonResult)
    (g outer : NeuralGraph) (heap : Heap)
    (kwargs : List (String × InputObject)) :
    CallState × Except CallError CallOutput :=
  let inner_mode := g.operation_mode
  let outer_mode := outer.operation_mode
  let st0 : CallState := ⟨g, outer, heap, []⟩
  if inner_mode = .inference ∧ outer_mode = .training then
    (st0, .error (.ModeIncompatibility inner_mode outer_mode))
  else if inner_mode = .training ∧ outer_mode = .inference then
    (st0, .error (.ModeIncompatibility inner_mode outer_mode))
  else if inner_mode = .training ∧ outer_mode = .both then
    (st0, .error (.ModeIncompatibility inner_mode outer_mode))
  else if inner_mode = .inference ∧ outer_mode = .both then
    (st0, .error (.ModeIncompatibility inner_mode outer_mode))
  else
    neuralGraphCallBody compare g outer heap kwargs

/-- State of the `Singleton` metaclass of `nemo/utils/app_state.py`: the
`__instances` dictionary (class → its unique instance) plus a fresh
allocation counter standing in for `super().__call__` creating a new
object.  Classes and instances are identified by numbers. -/
structure SingletonState where
  instances : List (Nat × Nat)
  nextId : Nat

/-- `Singleton.__call__(cls)`: create the instance on first call for `cls`,
then always return the stored instance. -/
def singletonCall (s : SingletonState) (cls : Nat) : Nat × SingletonState :=
  match dictGet s.instances cls with
  | some i => (i, s)
  | none => (s.nextId, ⟨dictInsert s.instances cls s.nextId, s.nextId + 1⟩)

/-- A sequence of `Singleton.__call__` invocations (arbitrary classes),
returning the final state. -/
def singletonCalls (s : SingletonState) : List Nat → SingletonState
  | [] => s
  | c :: cs => singletonCalls (singletonCall s c).2 cs

/-- Modelled from the spec: the process-wide active-graph slot held by the
`NeuralGraphManager` (that class is not among the sources; per the spec the
`active_graph` property's setter "changes it", with "no validation"). -/
structure GraphManagerState where
  active_graph : Option NeuralGraph

/-- `NeuralGraph.activate()` / `__enter__`:
`self._app_state.active_graph = self`. -/
def activate (g : NeuralGraph) (s : GraphManagerState) : GraphManagerState :=
  { s with active_graph := some g }

/-- `NeuralGraph.deactivate()`: `self._app_state.active_graph = None`. -/
def deactivate (_g : NeuralGraph) (s : GraphManagerState) : GraphManagerState :=
  { s with active_graph := none }

/-- `NeuralGraph.__exit__`: `self._app_state.active_graph = None`. -/
def neuralGraphExit (_g : NeuralGraph) (s : GraphManagerState) : GraphManagerState :=
  { s with active_graph := none }

/-! Concrete fixtures used by witnesses and counterexamples. -/

/-- A concrete comparison function: SAME on equal types, INCOMPATIBLE
otherwise (enough to exercise the call's SAME/GREATER gate). -/
def cmpEq : NeuralType → NmTensor → NeuralTypeComparisonResult :=
  fun pd t => if pd = t.ntype then .SAME else .INCOMPATIBLE

/-- A concrete module. -/
def mod0 : Module := ⟨"m0"⟩

/-- A concrete tensor with neural type `⟨0⟩`, produced by `mod0`. -/
def tensor0 : NmTensor := ⟨mod0, [], [], ⟨0⟩⟩

/-- A concrete heap: every id holds `tensor0`. -/
def heap0 : Heap := fun _ => tensor0

/-- A freshly constructed graph (no ports, outputs, modules or steps). -/
def emptyGraph (nm : String) (mode : OperationMode) : NeuralGraph :=
  ⟨nm, mode, [], [], [], [], [], []⟩

/-- A `both`-mode graph. -/
def gBoth : NeuralGraph := emptyGraph "g_both" OperationMode.both

/-- A `training`-mode graph used as the outer active graph. -/
def gTrainOuter : NeuralGraph := emptyGraph "o_train" OperationMode.training

/-- A `training`-mode graph used as the invoked graph. -/
def gTrainInner : NeuralGraph := emptyGraph "g_train" OperationMode.training

/-- An `inference`-mode graph used as the outer active graph. -/
def gInfOuter : NeuralGraph := emptyGraph "o_inf" OperationMode.inference

/-- A `both`-mode graph used as the outer active graph. -/
def gBothOuter : NeuralGraph := emptyGraph "o_both" OperationMode.both

/-- A graph with one bound input port `x` expecting type `⟨1⟩` (so feeding
`tensor0`, of type `⟨0⟩`, is INCOMPATIBLE under `cmpEq`). -/
def gTyped : NeuralGraph :=
  bind_input (emptyGraph "g_typed" OperationMode.both) "x" ⟨1⟩ mod0

/-- A graph with one bound input port `x` expecting type `⟨0⟩` (so feeding
`tensor0` compares SAME under `cmpEq`). -/
def gBound : NeuralGraph :=
  bind_input (emptyGraph "g_bound" OperationMode.both) "x" ⟨0⟩ mod0

/-- `gBound` with tensor `0` additionally recorded as a bound output
produced by `mod0` (so the producer-args rewrite loop fires). -/
def gBoundOut : NeuralGraph :=
  { gBound with bound_outputs := [("y", 0)] }

/-- A graph with exactly one bound output. -/
def gOneOut : NeuralGraph :=
  { emptyGraph "g_out" OperationMode.both with bound_outputs := [("y", 0)] }

/-- A graph with one recorded step (built through `record_step`). -/
def gSteps : NeuralGraph := record_step (emptyGraph "g_steps" OperationMode.both) mod0 []

/-! Helper lemmas about the dictionary model. -/

theorem dictGet_insert_self {κ α : Type} [DecidableEq κ]
    (d : List (κ × α)) (k : κ) (v : α) :
    dictGet (dictInsert d k v) k = some v := by
  induction d with
  | nil => simp [dictInsert, dictGet]
  | cons hd tl ih =>
    obtain ⟨k₀, v₀⟩ := hd
    by_cases h : k = k₀
    · simp [dictInsert, h, dictGet]
    · simp [dictInsert, h, dictGet, ih]

theorem dictGet_insert_ne {κ α : Type} [DecidableEq κ]
    (d : List (κ × α)) (k k' : κ) (v : α) (h : k' ≠ k) :
    dictGet (dictInsert d k v) k' = dictGet d k' := by
  induction d with
  | nil => simp [dictInsert, dictGet, h]
  | cons hd tl ih =>
    obtain ⟨k₀, v₀⟩ := hd
    by_cases hk : k = k₀
    · subst hk
      simp [dictInsert, dictGet, h]
    · simp [dictInsert, hk, dictGet, ih]

theorem dictInsert_self_of_get {κ α : Type} [DecidableEq κ]
    (d : List (κ × α)) (k : κ) (v : α) (h : dictGet d k = some v) :
    dictInsert d k v = d := by
  induction d with
  | nil => simp [dictGet] at h
  | cons hd tl ih =>
    obtain ⟨k₀, v₀⟩ := hd
    by_cases hk : k = k₀
    · subst hk
      simp [dictGet] at h
      simp [dictInsert, h]
    · simp [dictGet, hk] at h
      simp [dictInsert, hk, ih h]

/-! Helper lemmas about the kwargs-processing loop. -/

theorem processKwargs_g (compare : NeuralType → NmTensor → NeuralTypeComparisonResult)
    (st : CallState) (l : List (String × InputObject)) :
    (processKwargs compare st l).1.g = st.g := by
  induction l generalizing st with
  | nil => rfl
  | cons hd tl ih =>
    obtain ⟨name, obj⟩ := hd
    simp only [processKwargs]
    cases hpd : dictGet st.g.bound_input_ports name with
    | none => rfl
    | some pd =>
      cases obj with
      | graphRef gid => exact ih _
      | tensor tid =>
        by_cases hc : compare pd (st.heap tid) = .SAME ∨ compare pd (st.heap tid) = .GREATER
        · simp only [hc, if_pos]
          cases hm : dictGet st.g.bound_input_modules name with
          | none => rfl
          | some consumer => exact ih _
        · simp only [hc, if_neg, not_false_iff]

theorem processKwargs_outer (compare : NeuralType → NmTensor → NeuralTypeComparisonResult)
    (st : CallState) (l : List (String × InputObject)) :
    (processKwargs compare st l).1.outer = st.outer := by
  induction l generalizing st with
  | nil => rfl
  | cons hd tl ih =>
    obtain ⟨name, obj⟩ := hd
    simp only [processKwargs]
    cases hpd : dictGet st.g.bound_input_ports name with
    | none => rfl
    | some pd =>
      cases obj with
      | graphRef gid => exact ih _
      | tensor tid =>
        by_cases hc : compare pd (st.heap tid) = .SAME ∨ compare pd (st.heap tid) = .GREATER
        · simp only [hc, if_pos]
          cases hm : dictGet st.g.bound_input_modules name with
          | none => rfl
          | some consumer => exact ih _
        · simp only [hc, if_neg, not_false_iff]

theorem processKwargs_tensors (compare : NeuralType → NmTensor → NeuralTypeComparisonResult)
    (st : CallState) (l : List (String × InputObject)) :
    (processKwargs compare st l).1.g.bound_input_tensors = st.g.bound_input_tensors := by
  rw [processKwargs_g]

theorem processKwargs_indep (compare : NeuralType → NmTensor → NeuralTypeComparisonResult)
    (g : NeuralGraph) (l : List (String × InputObject)) :
    ∀ (heap : Heap) (o o' : NeuralGraph) (b b' : List ExternalBind),
    (processKwargs compare ⟨g, o, heap, b⟩ l).2 = (processKwargs compare ⟨g, o', heap, b'⟩ l).2 ∧
    (processKwargs compare ⟨g, o, heap, b⟩ l).1.heap =
      (processKwargs compare ⟨g, o', heap, b'⟩ l).1.heap := by
  induction l with
  | nil => intro heap o o' b b'; exact ⟨rfl, rfl⟩
  | cons hd tl ih =>
    intro heap o o' b b'
    obtain ⟨name, obj⟩ := hd
    simp only [processKwargs]
    cases hpd : dictGet g.bound_input_ports name with
    | none => exact ⟨rfl, rfl⟩
    | some pd =>
      cases obj with
      | graphRef gid => exact ih heap o o' _ _
      | tensor tid =>
        by_cases hc : compare pd (heap tid) = .SAME ∨ compare pd (heap tid) = .GREATER
        · simp only [hc, if_pos]
          cases hm : dictGet g.bound_input_modules name with
          | none => exact ⟨rfl, rfl⟩
          | some consumer => exact ih _ o o' b b'
        · simp [hc]

theorem processKwargs_append (compare : NeuralType → NmTensor → NeuralTypeComparisonResult)
    (st : CallState) (l₁ l₂ : List (String × InputObject)) :
    processKwargs compare st (l₁ ++ l₂) =
      match processKwargs compare st l₁ with
      | (st', none) => processKwargs compare st' l₂
      | (st', some e) => (st', some e) := by
  induction l₁ generalizing st with
  | nil => rfl
  | cons hd tl ih =>
    obtain ⟨name, obj⟩ := hd
    simp only [List.cons_append, processKwargs]
    cases hpd : dictGet st.g.bound_input_ports name with
    | none => rfl
    | some pd =>
      cases obj with
      | graphRef gid => exact ih _
      | tensor tid =>
        by_cases hc : compare pd (st.heap tid) = .SAME ∨ compare pd (st.heap tid) = .GREATER
        · simp only [hc, if_pos]
          cases hm : dictGet st.g.bound_input_modules name with
          | none => rfl
          | some consumer => exact ih _
        · simp only [hc, if_neg, not_false_iff]

theorem processKwargs_no_mode_error
    (compare : NeuralType → NmTensor → NeuralTypeComparisonResult)
    (st : CallState) (l : List (String × InputObject)) (a b : OperationMode) :
    (processKwargs compare st l).2 ≠ some (.ModeIncompatibility a b) := by
  induction l generalizing st with
  | nil => simp [processKwargs]
  | cons hd tl ih =>
    obtain ⟨name, obj⟩ := hd
    simp only [processKwargs]
    cases hpd : dictGet st.g.bound_input_ports name with
    | none => simp
    | some pd =>
      cases obj with
      | graphRef gid => exact ih _
      | tensor tid =>
        by_cases hc : compare pd (st.heap tid) = .SAME ∨ compare pd (st.heap tid) = .GREATER
        · simp only [hc, if_pos]
          cases hm : dictGet st.g.bound_input_modules name with
          | none => simp
          | some consumer => exact ih _
        · simp only [hc, if_neg, not_false_iff]
          simp

/-! Helper lemmas about the producer-args rewrite loop. -/

theorem updateOutputs_producer (outs : List (String × TensorId)) :
    ∀ (h : Heap) (pn port : String) (t : TensorId) (i : TensorId),
    ((updateOutputs h outs pn port t) i).producer = (h i).producer := by
  induction outs with
  | nil => intro h pn port t i; rfl
  | cons hd tl ih =>
    intro h pn port t i
    obtain ⟨k, oid⟩ := hd
    simp only [updateOutputs]
    by_cases hc : (h oid).producer.name = pn
    · simp only [hc, if_pos]
      rw [ih]
      by_cases hi : i = oid <;> simp [hUpdate, hi]
    · simp only [hc, if_neg, not_false_iff]
      exact ih h pn port t i

theorem updateOutputs_consumers (outs : List (String × TensorId)) :
    ∀ (h : Heap) (pn port : String) (t : TensorId) (i : TensorId),
    ((updateOutputs h outs pn port t) i).consumers = (h i).consumers := by
  induction outs with
  | nil => intro h pn port t i; rfl
  | cons hd tl ih =>
    intro h pn port t i
    obtain ⟨k, oid⟩ := hd
    simp only [updateOutputs]
    by_cases hc : (h oid).producer.name = pn
    · simp only [hc, if_pos]
      rw [ih]
      by_cases hi : i = oid <;> simp [hUpdate, hi]
    · simp only [hc, if_neg, not_false_iff]
      exact ih h pn port t i

theorem updateOutputs_port_mono (outs : List (String × TensorId)) :
    ∀ (h : Heap) (pn port : String) (t : TensorId) (i : TensorId),
    dictGet (h i).producer_args port = some t →
    dictGet ((updateOutputs h outs pn port t) i).producer_args port = some t := by
  induction outs with
  | nil => intro h pn port t i hi; exact hi
  | cons hd tl ih =>
    intro h pn port t i hi
    obtain ⟨k, oid⟩ := hd
    simp only [updateOutputs]
    by_cases hc : (h oid).producer.name = pn
    · simp only [hc, if_pos]
      apply ih
      by_cases hio : i = oid
      · subst hio
        simp [hUpdate, dictGet_insert_self]
      · simpa [hUpdate, hio] using hi
    · simp only [hc, if_neg, not_false_iff]
      exact ih h pn port t i hi

theorem updateOutputs_port_set (outs : List (String × TensorId)) :
    ∀ (h : Heap) (pn port : String) (t : TensorId) (q : String × TensorId),
    q ∈ outs → (h q.2).producer.name = pn →
    dictGet ((updateOutputs h outs pn port t) q.2).producer_args port = some t := by
  induction outs with
  | nil => intro h pn port t q hq; exact absurd hq (List.not_mem_nil q)
  | cons hd tl ih =>
    intro h pn port t q hq hp
    obtain ⟨k, oid⟩ := hd
    rcases List.mem_cons.mp hq with hq1 | hq2
    · subst hq1
      simp only [updateOutputs, hp, if_pos]
      apply updateOutputs_port_mono
      simp [hUpdate, dictGet_insert_self]
    · simp only [updateOutputs]
      by_cases hc : (h oid).producer.name = pn
      · simp only [hc, if_pos]
        apply ih _ pn port t q hq2
        by_cases hio : q.2 = oid
        · rw [hio]
          simp only [hUpdate, if_pos rfl]
          rw [hio] at hp
          exact hp
        · simpa [hUpdate, hio] using hp
      · simp only [hc, if_neg, not_false_iff]
        exact ih h pn port t q hq2 hp

/-! Helper lemmas about the replay loop. -/

theorem replaySteps_steps (steps : List (Module × StepArgs)) :
    ∀ (d : NeuralGraph), (replaySteps steps d).steps = d.steps ++ steps := by
  induction steps with
  | nil => intro d; simp [replaySteps]
  | cons s tl ih =>
    intro d
    simp only [replaySteps, List.foldl_cons]
    rw [show (List.foldl (fun og step => record_step og step.1 step.2)
      (record_step d s.1 s.2) tl) = replaySteps tl (record_step d s.1 s.2) from rfl]
    rw [ih]
    simp [record_step]

theorem replaySteps_modules_absent (steps : List (Module × StepArgs)) :
    ∀ (d : NeuralGraph) (n : String), (∀ s ∈ steps, s.1.name ≠ n) →
    dictGet (replaySteps steps d).modules n = dictGet d.modules n := by
  induction steps with
  | nil => intro d n _; rfl
  | cons s tl ih =>
    intro d n habs
    simp only [replaySteps, List.foldl_cons]
    rw [show (List.foldl (fun og step => record_step og step.1 step.2)
      (record_step d s.1 s.2) tl) = replaySteps tl (record_step d s.1 s.2) from rfl]
    rw [ih _ n fun x hx => habs x (List.mem_cons_of_mem s hx)]
    simp only [record_step]
    exact dictGet_insert_ne _ _ _ _ fun hn => habs s (List.mem_cons_self s tl) hn.symm

theorem replaySteps_modules_get (steps : List (Module × StepArgs)) :
    ∀ (d : NeuralGraph) (m : Module),
    (∃ s ∈ steps, s.1 = m) → (∀ s ∈ steps, s.1.name = m.name → s.1 = m) →
    dictGet (replaySteps steps d).modules m.name = some m := by
  induction steps with
  | nil =>
    intro d m hex _
    obtain ⟨s, hs, _⟩ := hex
    exact absurd hs (List.not_mem_nil s)
  | cons s₀ tl ih =>
    intro d m hex huniq
    simp only [replaySteps, List.foldl_cons]
    rw [show (List.foldl (fun og step => record_step og step.1 step.2)
      (record_step d s₀.1 s₀.2) tl) = replaySteps tl (record_step d s₀.1 s₀.2) from rfl]
    by_cases hextl : ∃ s ∈ tl, s.1 = m
    · exact ih _ m hextl fun x hx => huniq x (List.mem_cons_of_mem s₀ hx)
    · have hs₀ : s₀.1 = m := by
        obtain ⟨s, hs, hsm⟩ := hex
        rcases List.mem_cons.mp hs with h1 | h2
        · rw [← h1]; exact hsm
        · exact absurd ⟨s, h2, hsm⟩ hextl
      have habs : ∀ s ∈ tl, s.1.name ≠ m.name := by
        intro s hs hn
        exact hextl ⟨s, hs, huniq s (List.mem_cons_of_mem s₀ hs) hn⟩
      rw [replaySteps_modules_absent tl _ m.name habs]
      simp only [record_step, hs₀]
      exact dictGet_insert_self _ _ _

/-! Helper lemmas about the singleton metaclass. -/

theorem singletonCall_get_self (s : SingletonState) (c : Nat) :
    dictGet (singletonCall s c).2.instances c = some (singletonCall s c).1 := by
  cases h : dictGet s.instances c with
  | some i => simp [singletonCall, h]
  | none => simp [singletonCall, h, dictGet_insert_self]

theorem singletonCall_preserves (s : SingletonState) (c c' : Nat) (i : Nat)
    (h : dictGet s.instances c = some i) :
    dictGet (singletonCall s c').2.instances c = some i := by
  cases hc : dictGet s.instances c' with
  | some j => simpa [singletonCall, hc] using h
  | none =>
    by_cases hcc : c = c'
    · subst hcc
      rw [hc] at h
      exact absurd h (by simp)
    · simp [singletonCall, hc, dictGet_insert_ne _ _ _ _ hcc, h]

theorem singletonCalls_preserves (cs : List Nat) :
    ∀ (s : SingletonState) (c i : Nat),
    dictGet s.instances c = some i →
    dictGet (singletonCalls s cs).instances c = some i := by
  induction cs with
  | nil => intro s c i h; exact h
  | cons c' tl ih =>
    intro s c i h
    exact ih _ c i (singletonCall_preserves s c c' i h)

/-- When the operation-mode checks pass (the invoked graph's mode is `both`
or equals the outer graph's mode), `__call__` runs its body. -/
theorem neuralGraphCall_eq_body
    (compare : NeuralType → NmTensor → NeuralTypeComparisonResult)
    (g outer : NeuralGraph) (heap : Heap) (kwargs : List (String × InputObject))
    (hmode : g.operation_mode = .both ∨ g.operation_mode = outer.operation_mode) :
    neuralGraphCall compare g outer heap kwargs =
      neuralGraphCallBody compare g outer heap kwargs := by
  unfold neuralGraphCall
  cases hg : g.operation_mode <;> cases ho : outer.operation_mode <;>
    simp_all

/-! Claim theorems. -/

/-- Claim C9: every call to the Application State accessor
(`Singleton.__call__`) returns the same instance as the first call,
regardless of how many other accessor calls (for any class) happen in
between: the accessor is idempotent and the singleton instance persists. -/
theorem appstate_accessor_idempotent (s : SingletonState) (cls : Nat) (cs : List Nat) :
    (singletonCall (singletonCalls (singletonCall s cls).2 cs) cls).1 =
      (singletonCall s cls).1 := by
  have h1 := singletonCall_get_self s cls
  have h2 := singletonCalls_preserves cs _ cls _ h1
  set s1 := (singletonCall s cls).2 with hs1
  set i1 := (singletonCall s cls).1 with hi1
  show (singletonCall (singletonCalls s1 cs) cls).1 = i1
  simp only [singletonCall, h2]

/-- Claim C10: `deactivate()` and `__exit__` set the process-wide
active-graph slot to `none` unconditionally; in particular, after
activating `g` and then a different graph `h`, exiting `g`'s scope leaves
no graph active (it never restores `h`). -/
theorem deactivate_clears_active_slot (s : GraphManagerState) (g h : NeuralGraph) :
    (deactivate g s).active_graph = none ∧
    (neuralGraphExit g s).active_graph = none ∧
    (neuralGraphExit g (activate h (activate g s))).active_graph = none ∧
    (neuralGraphExit g (activate h (activate g s))).active_graph ≠ some h := by
  refine ⟨rfl, rfl, rfl, ?_⟩
  simp [neuralGraphExit, activate]

/-- Claim C8: `record_step(module, arguments)` appends `(module, arguments)`
to `steps` and inserts `module` into `modules` keyed by its name,
re-insertion being idempotent when the module is already present under its
name; and the invariant that every step's module is present in `modules`
under its name is preserved (given that no other module in the graph's
steps shares the inserted module's registered unique name). -/
theorem record_step_invariant (g : NeuralGraph) (m : Module) (args : StepArgs)
    (hclash : ∀ p ∈ g.steps, p.1.name = m.name → p.1 = m)
    (hinv : ∀ p ∈ g.steps, dictGet g.modules p.1.name = some p.1) :
    (record_step g m args).steps = g.steps ++ [(m, args)] ∧
    dictGet (record_step g m args).modules m.name = some m ∧
    (dictGet g.modules m.name = some m → (record_step g m args).modules = g.modules) ∧
    ∀ p ∈ (record_step g m args).steps,
      dictGet (record_step g m args).modules p.1.name = some p.1 := by
  refine ⟨rfl, dictGet_insert_self _ _ _, fun hm => ?_, fun p hp => ?_⟩
  · simp only [record_step]
    rw [dictInsert_self_of_get _ _ _ hm]
  · simp only [record_step] at hp ⊢
    rcases List.mem_append.mp hp with hp1 | hp2
    · by_cases hn : p.1.name = m.name
      · rw [hn, hclash p hp1 hn]
        exact dictGet_insert_self _ _ _
      · rw [dictGet_insert_ne _ _ _ _ hn]
        exact hinv p hp1
    · have hpm : p = (m, args) := by simpa using hp2
      rw [hpm]
      exact dictGet_insert_self _ _ _

/-- The call body never raises the mode-incompatibility error: that error
is only produced by the checks at the top of `__call__`. -/
theorem callBody_no_mode_error
    (compare : NeuralType → NmTensor → NeuralTypeComparisonResult)
    (g outer : NeuralGraph) (heap : Heap) (kwargs : List (String × InputObject))
    (a b : OperationMode) :
    (neuralGraphCallBody compare g outer heap kwargs).2 ≠
      .error (.ModeIncompatibility a b) := by
  unfold neuralGraphCallBody
  dsimp only
  split
  · rename_i st2 e heq
    intro h
    have he : e = CallError.ModeIncompatibility a b := by simpa using h
    have hne := processKwargs_no_mode_error compare
      ⟨g, replaySteps g.steps outer, heap, []⟩ kwargs a b
    rw [heq, he] at hne
    exact hne rfl
  · rename_i st2 heq
    intro h
    split at h <;> simp at h

/-- Invoking a graph never mutates the invoked graph's own record:
`__call__` only reads `self`, so the `self` component of the state is
unchanged, in success and in every failure. -/
theorem neuralGraphCall_g
    (compare : NeuralType → NmTensor → NeuralTypeComparisonResult)
    (g outer : NeuralGraph) (heap : Heap) (kwargs : List (String × InputObject)) :
    (neuralGraphCall compare g outer heap kwargs).1.g = g := by
  unfold neuralGraphCall neuralGraphCallBody
  dsimp only
  split
  · rfl
  · split
    · rfl
    · split
      · rfl
      · split
        · rfl
        · split
          · rename_i st2 e heq
            have := processKwargs_g compare ⟨g, replaySteps g.steps outer, heap, []⟩ kwargs
            rw [heq] at this
            exact this
          · rename_i st2 heq
            have hg2 : st2.g = g := by
              have := processKwargs_g compare ⟨g, replaySteps g.steps outer, heap, []⟩ kwargs
              rw [heq] at this
              exact this
            split <;> exact hg2

/-- The outer graph after the call body is exactly the outer graph with
the invoked graph's steps replayed into it (the kwargs loop never touches
the outer graph). -/
theorem callBody_outer
    (compare : NeuralType → NmTensor → NeuralTypeComparisonResult)
    (g outer : NeuralGraph) (heap : Heap) (kwargs : List (String × InputObject)) :
    (neuralGraphCallBody compare g outer heap kwargs).1.outer =
      replaySteps g.steps outer := by
  unfold neuralGraphCallBody
  dsimp only
  split
  · rename_i st2 e heq
    have := processKwargs_outer compare ⟨g, replaySteps g.steps outer, heap, []⟩ kwargs
    rw [heq] at this
    exact this
  · rename_i st2 heq
    have h2 : st2.outer = replaySteps g.steps outer := by
      have := processKwargs_outer compare ⟨g, replaySteps g.steps outer, heap, []⟩ kwargs
      rw [heq] at this
      exact this
    split <;> exact h2

/-- Explicit evaluation of the kwargs loop on a single successfully bound
tensor argument. -/
theorem processKwargs_single_tensor
    (compare : NeuralType → NmTensor → NeuralTypeComparisonResult)
    (st : CallState) (p : String) (tid : TensorId) (pd : NeuralType) (bm : Module)
    (hport : dictGet st.g.bound_input_ports p = some pd)
    (hmod : dictGet st.g.bound_input_modules p = some bm)
    (hcmp : compare pd (st.heap tid) = .SAME ∨ compare pd (st.heap tid) = .GREATER) :
    processKwargs compare st [(p, .tensor tid)] =
      ({ st with heap := (updateOutputs
          (hUpdate st.heap tid
            { st.heap tid with consumers := (st.heap tid).consumers ++ [(bm, p)] })
          st.g.bound_outputs bm.name p tid) }, none) := by
  simp only [processKwargs, hport, hmod, hcmp, if_pos]

/-- Explicit evaluation of the kwargs loop on a single tensor argument
failing the type check. -/
theorem processKwargs_single_tensor_fail
    (compare : NeuralType → NmTensor → NeuralTypeComparisonResult)
    (st : CallState) (p : String) (tid : TensorId) (pd : NeuralType)
    (hport : dictGet st.g.bound_input_ports p = some pd)
    (hcmp : ¬(compare pd (st.heap tid) = .SAME ∨ compare pd (st.heap tid) = .GREATER)) :
    processKwargs compare st [(p, .tensor tid)] =
      (st, some (.PortTypeMismatch pd (st.heap tid).ntype (compare pd (st.heap tid)))) := by
  simp only [processKwargs, hport, hcmp, if_neg, not_false_iff]

/-- The tensor heap after the call body is the heap after the kwargs
loop. -/
theorem callBody_heap
    (compare : NeuralType → NmTensor → NeuralTypeComparisonResult)
    (g outer : NeuralGraph) (heap : Heap) (kwargs : List (String × InputObject)) :
    (neuralGraphCallBody compare g outer heap kwargs).1.heap =
      (processKwargs compare ⟨g, replaySteps g.steps outer, heap, []⟩ kwargs).1.heap := by
  unfold neuralGraphCallBody
  dsimp only
  split
  · rename_i st2 e heq
    rw [heq]
  · rename_i st2 heq
    rw [heq]
    split <;> rfl

/-- When the kwargs loop succeeds, the call body returns a value. -/
theorem callBody_ok_of_processKwargs
    (compare : NeuralType → NmTensor → NeuralTypeComparisonResult)
    (g outer : NeuralGraph) (heap : Heap) (kwargs : List (String × InputObject))
    (st2 : CallState)
    (h : processKwargs compare ⟨g, replaySteps g.steps outer, heap, []⟩ kwargs = (st2, none)) :
    ∃ out, (neuralGraphCallBody compare g outer heap kwargs).2 = .ok out := by
  unfold neuralGraphCallBody
  dsimp only
  rw [h]
  dsimp only
  split
  · exact ⟨_, rfl⟩
  · exact ⟨_, rfl⟩

/-- When the kwargs loop raises, the call body raises that error. -/
theorem callBody_error_of_processKwargs
    (compare : NeuralType → NmTensor → NeuralTypeComparisonResult)
    (g outer : NeuralGraph) (heap : Heap) (kwargs : List (String × InputObject))
    (st2 : CallState) (e : CallError)
    (h : processKwargs compare ⟨g, replaySteps g.steps outer, heap, []⟩ kwargs = (st2, some e)) :
    (neuralGraphCallBody compare g outer heap kwargs).2 = .error e := by
  unfold neuralGraphCallBody
  dsimp only
  rw [h]

/-- Claim C1 (amended): the invocation of `g` under active graph `outer`
fails with `ModeIncompatibility` iff `g`'s mode is `training` or
`inference` and differs from the outer mode (the four illegal pairs);
nesting a `both`-mode graph is never rejected by the mode check. -/
theorem mode_incompatibility_iff
    (compare : NeuralType → NmTensor → NeuralTypeComparisonResult)
    (g outer : NeuralGraph) (heap : Heap) (kwargs : List (String × InputObject)) :
    (neuralGraphCall compare g outer heap kwargs).2 =
        .error (.ModeIncompatibility g.operation_mode outer.operation_mode) ↔
      (g.operation_mode ≠ .both ∧ g.operation_mode ≠ outer.operation_mode) := by
  by_cases hpass : g.operation_mode = .both ∨ g.operation_mode = outer.operation_mode
  · rw [neuralGraphCall_eq_body compare g outer heap kwargs hpass]
    constructor
    · intro h
      exact absurd h (callBody_no_mode_error compare g outer heap kwargs _ _)
    · rintro ⟨h1, h2⟩
      rcases hpass with h | h
      · exact absurd h h1
      · exact absurd h h2
  · push_neg at hpass
    constructor
    · intro _
      exact hpass
    · intro _
      obtain ⟨h1, h2⟩ := hpass
      unfold neuralGraphCall
      cases hg : g.operation_mode <;> cases ho : outer.operation_mode <;> simp_all

/-- Counterexample to claim C1 as stated: a `both`-mode graph invoked
under a `training`-mode active graph has a different mode, yet the call
succeeds (no `ModeIncompatibility` is raised). -/
theorem mode_differs_yet_call_succeeds :
    gBoth.operation_mode ≠ gTrainOuter.operation_mode ∧
    (neuralGraphCall cmpEq gBoth gTrainOuter heap0 []).2 =
      .ok (.aggregate []) := by
  refine ⟨by decide, ?_⟩
  rfl

/-- Claim C2 (amended): an invocation whose mode check passes and whose
keyword arguments preceding an unknown name all bind successfully fails
with `PortNameMismatch` naming that keyword, and the invoked graph's
recorded steps are unchanged by the failed call. -/
theorem unknown_kwarg_port_name_mismatch
    (compare : NeuralType → NmTensor → NeuralTypeComparisonResult)
    (g outer : NeuralGraph) (heap : Heap)
    (pre rest : List (String × InputObject)) (name : String) (obj : InputObject)
    (hmode : g.operation_mode = .both ∨ g.operation_mode = outer.operation_mode)
    (hpre : (processKwargs compare ⟨g, outer, heap, []⟩ pre).2 = none)
    (hname : dictGet g.bound_input_ports name = none) :
    (neuralGraphCall compare g outer heap (pre ++ (name, obj) :: rest)).2 =
      .error (.PortNameMismatch name) ∧
    (neuralGraphCall compare g outer heap (pre ++ (name, obj) :: rest)).1.g.steps =
      g.steps := by
  have hg := neuralGraphCall_g compare g outer heap (pre ++ (name, obj) :: rest)
  refine ⟨?_, by rw [hg]⟩
  rw [neuralGraphCall_eq_body compare g outer heap _ hmode]
  unfold neuralGraphCallBody
  dsimp only
  rw [processKwargs_append]
  cases hpk : processKwargs compare ⟨g, replaySteps g.steps outer, heap, []⟩ pre with
  | mk st1' e1 =>
    have hind := (processKwargs_indep compare g pre heap
      (replaySteps g.steps outer) outer [] []).1
    rw [hpk, hpre] at hind
    have he1 : e1 = none := hind
    subst he1
    dsimp only
    have hg' : st1'.g = g := by
      have := processKwargs_g compare ⟨g, replaySteps g.steps outer, heap, []⟩ pre
      rw [hpk] at this
      exact this
    simp only [processKwargs, hg', hname]

/-- Counterexample to claim C2 as stated: a call carrying an unknown
keyword can fail with `ModeIncompatibility` (the mode check runs before
any keyword is examined) or with `PortTypeMismatch` (an earlier keyword
fails the type check first), so it does not always fail with
`PortNameMismatch`. -/
theorem unknown_kwarg_fails_differently :
    (dictGet gTrainInner.bound_input_ports "bogus" = none ∧
      (neuralGraphCall cmpEq gTrainInner gInfOuter heap0 [("bogus", .tensor 0)]).2 =
        .error (.ModeIncompatibility .training .inference)) ∧
    (dictGet gTyped.bound_input_ports "bogus" = none ∧
      (neuralGraphCall cmpEq gTyped gBothOuter heap0
          [("x", .tensor 0), ("bogus", .tensor 0)]).2 =
        .error (.PortTypeMismatch ⟨1⟩ ⟨0⟩ .INCOMPATIBLE)) := by
  refine ⟨⟨by decide, rfl⟩, ⟨by decide, rfl⟩⟩

/-- Witness for claim C2's amended theorem: one successfully bound keyword
followed by an unknown keyword. -/
theorem unknown_kwarg_port_name_mismatch_witness :
    (gBound.operation_mode = .both ∨ gBound.operation_mode = gBothOuter.operation_mode) ∧
    (processKwargs cmpEq ⟨gBound, gBothOuter, heap0, []⟩ [("x", .tensor 0)]).2 = none ∧
    dictGet gBound.bound_input_ports "bogus" = none ∧
    ((neuralGraphCall cmpEq gBound gBothOuter heap0
        [("x", .tensor 0), ("bogus", .tensor 0)]).2 =
      .error (.PortNameMismatch "bogus") ∧
     (neuralGraphCall cmpEq gBound gBothOuter heap0
        [("x", .tensor 0), ("bogus", .tensor 0)]).1.g.steps = gBound.steps) :=
  ⟨by decide, by decide, by decide,
   unknown_kwarg_port_name_mismatch cmpEq gBound gBothOuter heap0
     [("x", .tensor 0)] [] "bogus" (.tensor 0) (by decide) (by decide) (by decide)⟩

/-- Claim C3: a successful tensor binding at bound port `p` appends
`(bound module, p)` to the supplied tensor's consumer list, and every
bound-output tensor whose producer is the bound module (compared, as in
the source, by name) gets its `producer_args[p]` replaced by the supplied
tensor. -/
theorem tensor_binding_bookkeeping
    (compare : NeuralType → NmTensor → NeuralTypeComparisonResult)
    (g outer : NeuralGraph) (heap : Heap) (p : String) (tid : TensorId)
    (pd : NeuralType) (bm : Module)
    (hmode : g.operation_mode = .both ∨ g.operation_mode = outer.operation_mode)
    (hport : dictGet g.bound_input_ports p = some pd)
    (hmod : dictGet g.bound_input_modules p = some bm)
    (hcmp : compare pd (heap tid) = .SAME ∨ compare pd (heap tid) = .GREATER) :
    ((neuralGraphCall compare g outer heap [(p, .tensor tid)]).1.heap tid).consumers =
      (heap tid).consumers ++ [(bm, p)] ∧
    ∀ q ∈ g.bound_outputs, (heap q.2).producer.name = bm.name →
      dictGet ((neuralGraphCall compare g outer heap
        [(p, .tensor tid)]).1.heap q.2).producer_args p = some tid := by
  rw [neuralGraphCall_eq_body compare g outer heap _ hmode]
  rw [callBody_heap]
  rw [processKwargs_single_tensor compare ⟨g, replaySteps g.steps outer, heap, []⟩
    p tid pd bm hport hmod hcmp]
  dsimp only
  constructor
  · rw [updateOutputs_consumers]
    simp [hUpdate]
  · intro q hq hprod
    apply updateOutputs_port_set _ _ _ _ _ q hq
    by_cases hio : q.2 = tid
    · rw [hio]
      simp only [hUpdate, if_pos rfl]
      rw [hio] at hprod
      exact hprod
    · simpa [hUpdate, hio] using hprod

/-- Witness for claim C3: binding tensor `0` to port `x` of `gBoundOut`,
whose bound output `y` is (the same) tensor `0` produced by the bound
module `mod0`. -/
theorem tensor_binding_bookkeeping_witness :
    (gBoundOut.operation_mode = .both ∨
      gBoundOut.operation_mode = gBothOuter.operation_mode) ∧
    dictGet gBoundOut.bound_input_ports "x" = some ⟨0⟩ ∧
    dictGet gBoundOut.bound_input_modules "x" = some mod0 ∧
    (cmpEq ⟨0⟩ (heap0 0) = .SAME ∨ cmpEq ⟨0⟩ (heap0 0) = .GREATER) ∧
    (((neuralGraphCall cmpEq gBoundOut gBothOuter heap0
        [("x", .tensor 0)]).1.heap 0).consumers =
      (heap0 0).consumers ++ [(mod0, "x")] ∧
     ∀ q ∈ gBoundOut.bound_outputs, (heap0 q.2).producer.name = mod0.name →
      dictGet ((neuralGraphCall cmpEq gBoundOut gBothOuter heap0
        [("x", .tensor 0)]).1.heap q.2).producer_args "x" = some 0) :=
  ⟨by decide, by decide, by decide, by decide,
   tensor_binding_bookkeeping cmpEq gBoundOut gBothOuter heap0 "x" 0 ⟨0⟩ mod0
     (by decide) (by decide) (by decide) (by decide)⟩

/-- Claim C4: a tensor passed for a bound input port is accepted iff the
port descriptor's comparison against it yields SAME or GREATER; any other
result fails the call with `PortTypeMismatch` carrying both descriptors
and the comparison result. -/
theorem tensor_binding_type_gate
    (compare : NeuralType → NmTensor → NeuralTypeComparisonResult)
    (g outer : NeuralGraph) (heap : Heap) (p : String) (tid : TensorId)
    (pd : NeuralType) (bm : Module)
    (hmode : g.operation_mode = .both ∨ g.operation_mode = outer.operation_mode)
    (hport : dictGet g.bound_input_ports p = some pd)
    (hmod : dictGet g.bound_input_modules p = some bm) :
    ((∃ out, (neuralGraphCall compare g outer heap [(p, .tensor tid)]).2 = .ok out) ↔
      (compare pd (heap tid) = .SAME ∨ compare pd (heap tid) = .GREATER)) ∧
    (¬(compare pd (heap tid) = .SAME ∨ compare pd (heap tid) = .GREATER) →
      (neuralGraphCall compare g outer heap [(p, .tensor tid)]).2 =
        .error (.PortTypeMismatch pd (heap tid).ntype (compare pd (heap tid)))) := by
  rw [neuralGraphCall_eq_body compare g outer heap _ hmode]
  by_cases hcmp : compare pd (heap tid) = .SAME ∨ compare pd (heap tid) = .GREATER
  · have hok := callBody_ok_of_processKwargs compare g outer heap [(p, .tensor tid)] _
      (processKwargs_single_tensor compare ⟨g, replaySteps g.steps outer, heap, []⟩
        p tid pd bm hport hmod hcmp)
    exact ⟨⟨fun _ => hcmp, fun _ => hok⟩, fun h => absurd hcmp h⟩
  · have herr := callBody_error_of_processKwargs compare g outer heap [(p, .tensor tid)] _ _
      (processKwargs_single_tensor_fail compare ⟨g, replaySteps g.steps outer, heap, []⟩
        p tid pd hport hcmp)
    refine ⟨⟨fun hex => ?_, fun hc => absurd hc hcmp⟩, fun _ => herr⟩
    obtain ⟨out, hout⟩ := hex
    rw [herr] at hout
    exact Except.noConfusion hout

/-- Witness for claim C4: the SAME case on `gBound`. -/
theorem tensor_binding_type_gate_witness :
    (gBound.operation_mode = .both ∨ gBound.operation_mode = gBothOuter.operation_mode) ∧
    dictGet gBound.bound_input_ports "x" = some ⟨0⟩ ∧
    dictGet gBound.bound_input_modules "x" = some mod0 ∧
    (((∃ out, (neuralGraphCall cmpEq gBound gBothOuter heap0
          [("x", .tensor 0)]).2 = .ok out) ↔
        (cmpEq ⟨0⟩ (heap0 0) = .SAME ∨ cmpEq ⟨0⟩ (heap0 0) = .GREATER)) ∧
     (¬(cmpEq ⟨0⟩ (heap0 0) = .SAME ∨ cmpEq ⟨0⟩ (heap0 0) = .GREATER) →
        (neuralGraphCall cmpEq gBound gBothOuter heap0 [("x", .tensor 0)]).2 =
          .error (.PortTypeMismatch ⟨0⟩ (heap0 0).ntype (cmpEq ⟨0⟩ (heap0 0))))) :=
  ⟨by decide, by decide, by decide,
   tensor_binding_type_gate cmpEq gBound gBothOuter heap0 "x" 0 ⟨0⟩ mod0
     (by decide) (by decide) (by decide)⟩

/-- Counterexample to claim C5 as stated: the call that successfully binds
tensor `0` to port `x` of `gBound` returns a value, yet
`bound_input_tensors["x"]` is still unset (`None`) afterwards — the code
never writes the concrete tensor into that table. -/
theorem successful_binding_leaves_tensor_unset :
    (neuralGraphCall cmpEq gBound gBothOuter heap0 [("x", .tensor 0)]).2 =
      .ok (.aggregate []) ∧
    dictGet (neuralGraphCall cmpEq gBound gBothOuter heap0
        [("x", .tensor 0)]).1.g.bound_input_tensors "x" = some none :=
  ⟨rfl, rfl⟩

/-- Claim C5 (amended): `bind_input` establishes the unset (`None`) state
for the port, and invocation never modifies `bound_input_tensors` — the
entry stays unset even after the port receives a concrete tensor. -/
theorem bound_input_tensors_stay_unset
    (g : NeuralGraph) (p : String) (pd : NeuralType) (bm : Module)
    (compare : NeuralType → NmTensor → NeuralTypeComparisonResult)
    (g' outer : NeuralGraph) (heap : Heap) (kwargs : List (String × InputObject)) :
    dictGet (bind_input g p pd bm).bound_input_tensors p = some none ∧
    (neuralGraphCall compare g' outer heap kwargs).1.g.bound_input_tensors =
      g'.bound_input_tensors := by
  refine ⟨?_, by rw [neuralGraphCall_g]⟩
  simp only [bind_input]
  exact dictGet_insert_self _ _ _

/-- Claim C6: a successful invocation returns the single bound output
directly when exactly one exists, and otherwise an aggregate exposing
every bound output by name in insertion order. -/
theorem call_output_aggregation
    (compare : NeuralType → NmTensor → NeuralTypeComparisonResult)
    (g outer : NeuralGraph) (heap : Heap) (kwargs : List (String × InputObject))
    (hmode : g.operation_mode = .both ∨ g.operation_mode = outer.operation_mode)
    (hok : (processKwargs compare ⟨g, outer, heap, []⟩ kwargs).2 = none) :
    (g.bound_outputs.length = 1 →
      ∃ nm tid, g.bound_outputs = [(nm, tid)] ∧
        (neuralGraphCall compare g outer heap kwargs).2 = .ok (.single tid)) ∧
    (g.bound_outputs.length ≠ 1 →
      (neuralGraphCall compare g outer heap kwargs).2 =
        .ok (.aggregate g.bound_outputs)) := by
  rw [neuralGraphCall_eq_body compare g outer heap _ hmode]
  unfold neuralGraphCallBody
  dsimp only
  cases hpk : processKwargs compare ⟨g, replaySteps g.steps outer, heap, []⟩ kwargs with
  | mk st2 e =>
    have hind := (processKwargs_indep compare g kwargs heap
      (replaySteps g.steps outer) outer [] []).1
    rw [hpk, hok] at hind
    have he : e = none := hind
    subst he
    have hg2 : st2.g = g := by
      have := processKwargs_g compare ⟨g, replaySteps g.steps outer, heap, []⟩ kwargs
      rw [hpk] at this
      exact this
    dsimp only
    rw [hg2]
    rcases houts : g.bound_outputs with _ | ⟨⟨nm, tid⟩, _ | ⟨hd2, tl2⟩⟩
    · exact ⟨fun h => by simp at h, fun _ => rfl⟩
    · exact ⟨fun _ => ⟨nm, tid, rfl, rfl⟩, fun h => absurd rfl h⟩
    · exact ⟨fun h => by simp at h, fun _ => rfl⟩

/-- Witness for claim C6 on a graph with exactly one bound output. -/
theorem call_output_aggregation_witness :
    (gOneOut.operation_mode = .both ∨
      gOneOut.operation_mode = gBothOuter.operation_mode) ∧
    (processKwargs cmpEq ⟨gOneOut, gBothOuter, heap0, []⟩ []).2 = none ∧
    ((gOneOut.bound_outputs.length = 1 →
      ∃ nm tid, gOneOut.bound_outputs = [(nm, tid)] ∧
        (neuralGraphCall cmpEq gOneOut gBothOuter heap0 []).2 = .ok (.single tid)) ∧
     (gOneOut.bound_outputs.length ≠ 1 →
      (neuralGraphCall cmpEq gOneOut gBothOuter heap0 []).2 =
        .ok (.aggregate gOneOut.bound_outputs))) :=
  ⟨by decide, by decide,
   call_output_aggregation cmpEq gOneOut gBothOuter heap0 [] (by decide) (by decide)⟩

/-- Claim C7: when the mode check passes, every recorded step of the
invoked graph is replayed in order into the outer graph (its steps become
`outer.steps ++ g.steps`, so `g.steps` is a subsequence), and every module
of the invoked graph is present in the outer graph's module table (given
the registry's unique-name guarantee relating `g`'s module table to its
steps). -/
theorem nesting_replays_steps
    (compare : NeuralType → NmTensor → NeuralTypeComparisonResult)
    (g outer : NeuralGraph) (heap : Heap) (kwargs : List (String × InputObject))
    (hmode : g.operation_mode = .both ∨ g.operation_mode = outer.operation_mode)
    (hmods : ∀ q ∈ g.modules, q.2.name = q.1 ∧ (∃ s ∈ g.steps, s.1 = q.2) ∧
      ∀ s ∈ g.steps, s.1.name = q.1 → s.1 = q.2) :
    (neuralGraphCall compare g outer heap kwargs).1.outer.steps =
      outer.steps ++ g.steps ∧
    List.Sublist g.steps (neuralGraphCall compare g outer heap kwargs).1.outer.steps ∧
    ∀ q ∈ g.modules,
      dictGet (neuralGraphCall compare g outer heap kwargs).1.outer.modules q.1 =
        some q.2 := by
  rw [neuralGraphCall_eq_body compare g outer heap _ hmode]
  rw [callBody_outer]
  refine ⟨replaySteps_steps g.steps outer, ?_, ?_⟩
  · rw [replaySteps_steps g.steps outer]
    exact List.sublist_append_right outer.steps g.steps
  · intro q hq
    obtain ⟨hname, hex, huniq⟩ := hmods q hq
    have hget := replaySteps_modules_get g.steps outer q.2 hex (by rw [hname]; exact huniq)
    rw [hname] at hget
    exact hget

/-- Witness for claim C7: nesting `gSteps` (one step, one module) into an
empty outer graph. -/
theorem nesting_replays_steps_witness :
    (gSteps.operation_mode = .both ∨
      gSteps.operation_mode = gBothOuter.operation_mode) ∧
    (∀ q ∈ gSteps.modules, q.2.name = q.1 ∧ (∃ s ∈ gSteps.steps, s.1 = q.2) ∧
      ∀ s ∈ gSteps.steps, s.1.name = q.1 → s.1 = q.2) ∧
    ((neuralGraphCall cmpEq gSteps gBothOuter heap0 []).1.outer.steps =
      gBothOuter.steps ++ gSteps.steps ∧
     List.Sublist gSteps.steps
       (neuralGraphCall cmpEq gSteps gBothOuter heap0 []).1.outer.steps ∧
     ∀ q ∈ gSteps.modules,
      dictGet (neuralGraphCall cmpEq gSteps gBothOuter heap0 []).1.outer.modules q.1 =
        some q.2) :=
  ⟨by decide, by decide,
   nesting_replays_steps cmpEq gSteps gBothOuter heap0 [] (by decide) (by decide)⟩

/-- Witness for claim C8 at a concrete graph with one recorded step. -/
theorem record_step_invariant_witness :
    (∀ p ∈ gSteps.steps, p.1.name = mod0.name → p.1 = mod0) ∧
    (∀ p ∈ gSteps.steps, dictGet gSteps.modules p.1.name = some p.1) ∧
    ((record_step gSteps mod0 []).steps = gSteps.steps ++ [(mod0, [])] ∧
     dictGet (record_step gSteps mod0 []).modules mod0.name = some mod0 ∧
     (dictGet gSteps.modules mod0.name = some mod0 →
       (record_step gSteps mod0 []).modules = gSteps.modules) ∧
     ∀ p ∈ (record_step gSteps mod0 []).steps,
       dictGet (record_step gSteps mod0 []).modules p.1.name = some p.1) :=
  ⟨by decide, by decide, record_step_invariant gSteps mod0 [] (by decide) (by decide)⟩

end NeMoSpec
